import Mathlib

/- Verification of the PRIME surrogate-model training code (prime.py).

The development is a shallow embedding of the arithmetic parts of the
program over exact rationals: tensors become lists of rationals, a batch a
list of per-example rows, and the transcendental exponential / logarithm of
the softmax are abstracted as function parameters constrained only by the
properties the proofs use (positivity of the exponential, the sign of the
logarithm on (0, 1]), which the real functions satisfy.  Dictionary lookups
that can fail in python are modelled with Option / Except. -/

namespace PrimeSpec

/-- Arithmetic mean, tf.reduce_mean over a rank-1 tensor.  Every use below
is on a non-empty list (numpy would give NaN for an empty one). -/
def mean (l : List ℚ) : ℚ := l.sum / (l.length : ℚ)

/-- Elementwise clipping: tf.clip_by_value x lo hi = min (max x lo) hi. -/
def clipQ (lo hi x : ℚ) : ℚ := min (max x lo) hi

/-- Dot product of two equal-length vectors. -/
def dotProduct (a b : List ℚ) : ℚ := (List.zipWith (· * ·) a b).sum

/-- Softmax over a logit vector, with the exponential map `ef` abstracted:
tf.nn.softmax v = (map exp v) / sum (map exp v). -/
def softmax (ef : ℚ → ℚ) (v : List ℚ) : List ℚ :=
  v.map (fun x => ef x / (v.map ef).sum)

/-- tf.nn.log_softmax on the vote logits, through the identity
log_softmax v = log (softmax v), with the logarithm abstracted as `lg`. -/
def logSoftmax (ef lg : ℚ → ℚ) (v : List ℚ) : List ℚ :=
  (softmax ef v).map lg

/-- The vote probabilities of PRIMETransformerModel.call (non-contextual):
vote_prob = softmax (voting_network embedding), with the voting network an
abstract function of the transformer embedding. -/
def voteProb (ef : ℚ → ℚ) (votingNetwork : List ℚ → List ℚ)
    (emb : List ℚ) : List ℚ :=
  softmax ef (votingNetwork emb)

/-- The final per-example prediction of PRIMETransformerModel.call:
fwd_model_pred = reduce_sum (vote_prob * all_outputs, axis=-1), the expert
outputs being the abstract expert networks applied to the embedding. -/
def fwdModelPred (ef : ℚ → ℚ) (expertNetworks : List (List ℚ → ℚ))
    (votingNetwork : List ℚ → List ℚ) (emb : List ℚ) : ℚ :=
  (List.zipWith (· * ·) (voteProb ef votingNetwork emb)
    (expertNetworks.map (fun net => net emb))).sum

/-- The value PRIMETransformerModel.call stores under the key vote_entropy:
reduce_mean (reduce_sum (log_softmax (vote_logit) * vote_prob, axis=-1))
over a batch of per-example vote-logit vectors. -/
def voteEntropyLogged (ef lg : ℚ → ℚ) (logitsBatch : List (List ℚ)) : ℚ :=
  mean (logitsBatch.map (fun l =>
    (List.zipWith (· * ·) (logSoftmax ef lg l) (softmax ef l)).sum))

/-- Modelled from the spec: the entropy of a probability vector,
-sum of p_i * log p_i, the quantity the claim says vote_entropy equals. -/
def distEntropy (lg : ℚ → ℚ) (p : List ℚ) : ℚ :=
  -((p.map (fun x => x * lg x)).sum)

/-- Modelled from the spec: the mean over the batch of the entropy of the
voting softmax distribution. -/
def specVoteEntropy (ef lg : ℚ → ℚ) (logitsBatch : List (List ℚ)) : ℚ :=
  mean (logitsBatch.map (fun l => distEntropy lg (softmax ef l)))

/-- One stored dataset row as PRIMEDataset keeps it after
_convert_to_tf_dataset: the 0/1 infeasible flag and the area column, the
latter an integer because every loaded column passes through the int32
tensor conversion. -/
structure StoredRecord where
  infeasible : Bool
  area : ℤ
  deriving DecidableEq

/-- The per-record feasibility weight computed inside
PRIMEDataset.get_feasible_probs: feasible = 1 - infeasible, and under area
constraints feasible = clip (feasible + (area <= AREA_THRESHOLD) - 1, 0, 1)
with AREA_THRESHOLD = 27. -/
def feasibleFlag (addAreaConstraints : Bool) (r : StoredRecord) : ℚ :=
  let f : ℚ := 1 - (if r.infeasible then 1 else 0)
  if addAreaConstraints then
    let fa : ℚ := if r.area ≤ 27 then 1 else 0
    clipQ 0 1 (f + fa - 1)
  else f

/-- The feasibility predicate the weights implement: not infeasible, and
(when area-constrained) area at most the threshold. -/
def isFeasible (addAreaConstraints : Bool) (r : StoredRecord) : Bool :=
  !r.infeasible && (!addAreaConstraints || decide (r.area ≤ 27))

/-- Float division as numpy performs it inside get_feasible_probs: a zero
denominator does not raise, it yields a non-finite value (NaN from 0/0),
modelled as `none`. -/
def divNan (x y : ℚ) : Option ℚ :=
  if y = 0 then none else some (x / y)

/-- PRIMEDataset.get_feasible_probs: the pair (feasible probabilities,
infeasible probabilities) = (feasible / sum feasible,
(1 - feasible) / sum (1 - feasible)). -/
def getFeasibleProbs (recs : List StoredRecord) (addAreaConstraints : Bool) :
    List (Option ℚ) × List (Option ℚ) :=
  let feas := recs.map (feasibleFlag addAreaConstraints)
  (feas.map (fun f => divNan f feas.sum),
   feas.map (fun f => divNan (1 - f) (feas.map (fun g => 1 - g)).sum))

/-- The int32 conversion PRIMEDataset._convert_to_tf_dataset applies to
every loaded column, runtime included: a float cast to int32 truncates
toward zero (int32 wraparound is not modelled; dataset values are small). -/
def int32OfFloat (q : ℚ) : ℤ := q.num.tdiv (q.den : ℤ)

/-- The stored supervised target: PRIMEDataset.get_score_function computes
score = -runtime from the runtime column already converted to int32. -/
def storedScore (runtime : ℚ) : ℚ := -((int32OfFloat runtime : ℤ) : ℚ)

/-- Elementwise addition of two rows of equal length. -/
def addVec (a b : List ℚ) : List ℚ := List.zipWith (· + ·) a b

/-- One iteration of PRIMETransformerModel.infer_negatives.  The oracle
`gradPred` stands for tape.gradient (model_pred, log_probs): the full
gradient matrix, one row per example (the predictions are per-example, so
row b is the gradient of prediction b with respect to input row b).  The
source then adds opt_lr * grad[0] - the FIRST row of that matrix - which
numpy broadcasting applies to every example of the batch. -/
def inferNegStep (gradPred : List (List ℚ) → List (List ℚ)) (lr : ℚ)
    (x : List (List ℚ)) : List (List ℚ) :=
  let g0 := (gradPred x).headD []
  x.map (fun row => addVec row (g0.map (fun v => lr * v)))

/-- The gradient-ascent loop of infer_negatives, num_gradient_infer_steps
iterations; the final tf.stop_gradient does not change values. -/
def inferNegLoop (gradPred : List (List ℚ) → List (List ℚ)) (lr : ℚ) :
    Nat → List (List ℚ) → List (List ℚ)
  | 0, x => x
  | n + 1, x => inferNegLoop gradPred lr n (inferNegStep gradPred lr x)

/-- Modelled from the spec: the update the claim describes, every example
moved by the gradient of its own prediction with respect to its own input
(row b of the gradient matrix added to row b of the batch). -/
def inferNegStepSpec (gradPred : List (List ℚ) → List (List ℚ)) (lr : ℚ)
    (x : List (List ℚ)) : List (List ℚ) :=
  List.zipWith (fun row grow => addVec row (grow.map (fun v => lr * v)))
    x (gradPred x)

/-- Modelled from the spec: the per-example gradient-ascent loop. -/
def inferNegLoopSpec (gradPred : List (List ℚ) → List (List ℚ)) (lr : ℚ) :
    Nat → List (List ℚ) → List (List ℚ)
  | 0, x => x
  | n + 1, x => inferNegLoopSpec gradPred lr n (inferNegStepSpec gradPred lr x)

/-- The tensors compute_loss reads from its data_batch dictionary
(non-contextual); a key the batch does not carry is `none`. -/
structure LossInputs where
  design : List (List ℚ)
  objective : List ℚ
  invalidDesign : Option (List (List ℚ))
  invalidObjective : Option (List ℚ)
  deriving DecidableEq

/-- The model attributes compute_loss reads: cql_alpha_value,
infeasible_alpha, opt_lr and num_gradient_infer_steps. -/
structure LossParams where
  cqlAlphaValue : ℚ
  infeasibleAlpha : ℚ
  optLr : ℚ
  numGradientInferSteps : Nat
  deriving DecidableEq

/-- The entries of the loss dictionary and the training loss that
compute_loss returns (the entries the claims are about; logging-only
correlation diagnostics are not modelled). -/
structure LossOutput where
  modelPred : List ℚ
  negativesPred : List ℚ
  cqlLoss : ℚ
  mseLoss : ℚ
  modelPredInvalid : Option (List ℚ)
  yValueInfeasible : Option ℚ
  mseLossInvalid : Option ℚ
  trainLoss : ℚ
  deriving DecidableEq

/-- weighted_mse_loss with unit weights: mean squared difference. -/
def mseLossQ (a b : List ℚ) : ℚ :=
  mean (List.zipWith (fun x y => (x - y) ^ 2) a b)

/-- PRIMETransformerModel.compute_loss, non-contextual, with the built-in
negative generator (negative_sampler is None).  `M` abstracts one forward
pass: `M training design` is the scalar prediction for one example under
the given python training flag.  `gradPred` abstracts the gradient oracle
of infer_negatives and `rankFn` abstracts ranking_trainable_loss (entering
the loss only when loss_type = "mse+rank").  The negatives forward pass is
`M true` exactly as the source hardcodes training=True there; a lookup of a
missing batch key is the python KeyError. -/
def computeLoss (M : Bool → List ℚ → ℚ)
    (gradPred : List (List ℚ) → List (List ℚ))
    (rankFn : List ℚ → List ℚ → ℚ)
    (p : LossParams) (batch : LossInputs) (lossType : String)
    (training : Bool) (rankingPenaltyWeight : ℚ)
    (inpBatchType : Option String) : Except String LossOutput :=
  let modelPred := batch.design.map (M training)
  let negativesBatch :=
    inferNegLoop gradPred p.optLr p.numGradientInferSteps batch.design
  let negativesPred := (negativesBatch.map (M true)).map (clipQ (-4000) 4000)
  let cqlLoss := clipQ (-4000) 1000000 (mean negativesPred)
  let mseLoss := mseLossQ modelPred batch.objective
  let rankTrain :=
    if lossType = "mse+rank" then rankFn modelPred batch.objective else 0
  let baseLoss :=
    mseLoss + rankingPenaltyWeight * rankTrain + p.cqlAlphaValue * cqlLoss
  if inpBatchType = some "valid" then
    Except.ok
      { modelPred := modelPred, negativesPred := negativesPred,
        cqlLoss := cqlLoss, mseLoss := mseLoss,
        modelPredInvalid := none, yValueInfeasible := none,
        mseLossInvalid := none, trainLoss := baseLoss }
  else
    match batch.invalidDesign with
    | none => Except.error "KeyError: invalid/design"
    | some invD =>
      let modelPredInvalid := invD.map (M training)
      let yInf := clipQ (-1000) 1000000 (mean modelPredInvalid)
      match batch.invalidObjective with
      | none => Except.error "KeyError: invalid/objective"
      | some invO =>
        Except.ok
          { modelPred := modelPred, negativesPred := negativesPred,
            cqlLoss := cqlLoss, mseLoss := mseLoss,
            modelPredInvalid := some modelPredInvalid,
            yValueInfeasible := some yInf,
            mseLossInvalid := some (mseLossQ modelPredInvalid invO),
            trainLoss := baseLoss + p.infeasibleAlpha * yInf }

/-- The call PRIMETransformerModel.perform_training makes: training=True,
and inp_batch_type left at its default None (perform_training forwards no
batch-type argument); the gradient application is not modelled. -/
def performTrainingLoss (M : Bool → List ℚ → ℚ)
    (gradPred : List (List ℚ) → List (List ℚ))
    (rankFn : List ℚ → List ℚ → ℚ)
    (p : LossParams) (batch : LossInputs) (lossType : String)
    (rankingPenaltyWeight : ℚ) : Except String LossOutput :=
  computeLoss M gradPred rankFn p batch lossType true rankingPenaltyWeight none

/-- The call PRIMETransformerModel.measure_stats makes: loss_type
"mse+rank", training=False, inp_batch_type = its batch_type argument
(default None). -/
def measureStatsLoss (M : Bool → List ℚ → ℚ)
    (gradPred : List (List ℚ) → List (List ℚ))
    (rankFn : List ℚ → List ℚ → ℚ)
    (p : LossParams) (batch : LossInputs)
    (batchType : Option String) : Except String LossOutput :=
  computeLoss M gradPred rankFn p batch "mse+rank" false 0 batchType

/-- The two attributes of HardwareOptProblem that the batch samplers read.
__init__ always assigns self.batch_size = 256, but the key-present branch
assigns a DIFFERENT attribute, self._batch_size; an attribute python never
assigned is `none` and reading it raises AttributeError. -/
structure ProblemState where
  batch_size : Nat
  batch_size_attr : Option Nat
  deriving DecidableEq

/-- HardwareOptProblem.__init__ restricted to the batch-size logic:
self.batch_size = 256 always, and self._batch_size = params_dict of
'batch_size' only when that key is present. -/
def hardwareOptProblemInit (paramsBatchSize : Option Nat) : ProblemState :=
  { batch_size := 256, batch_size_attr := paramsBatchSize }

/-- HardwareOptProblem.get_valid_only_batch reduced to the attribute read
that sizes the sample: np.random.choice (..., size=self._batch_size, ...).
Reading the never-assigned attribute raises AttributeError; randomness and
the sampled tensors are elided, the value is the requested batch size. -/
def getValidOnlyBatchSize (s : ProblemState) : Except String Nat :=
  match s.batch_size_attr with
  | some n => Except.ok n
  | none => Except.error "AttributeError: _batch_size"

theorem sum_map_div_comp (g : ℚ → ℚ) (l : List ℚ) (d : ℚ) :
    (l.map (fun x => g x / d)).sum = (l.map g).sum / d := by
  induction l with
  | nil => simp
  | cons a t ih => simp [ih, add_div]

theorem sum_map_ite {α : Type} (l : List α) (p : α → Bool) (c : ℚ) :
    (l.map (fun a => if p a then c else 0)).sum = (l.countP p : ℚ) * c := by
  induction l with
  | nil => simp
  | cons a t ih =>
    by_cases h : p a
    · simp only [List.map_cons, List.sum_cons, List.countP_cons, h, if_true,
        ih]
      push_cast
      ring
    · simp [List.countP_cons, h, ih]

theorem zip_mul_map_sum (g : ℚ → ℚ) (p : List ℚ) :
    (List.zipWith (· * ·) (p.map g) p).sum = (p.map (fun x => x * g x)).sum := by
  induction p with
  | nil => rfl
  | cons a t ih => simp [ih, mul_comm]

theorem sum_map_neg_q {α : Type} (f : α → ℚ) (l : List α) :
    (l.map (fun a => -(f a))).sum = -((l.map f).sum) := by
  induction l with
  | nil => simp
  | cons a t ih =>
    simp only [List.map_cons, List.sum_cons, ih]
    ring

theorem sum_nonpos_q (l : List ℚ) (h : ∀ x ∈ l, x ≤ 0) : l.sum ≤ 0 := by
  induction l with
  | nil => simp
  | cons a t ih =>
    simp only [List.sum_cons]
    have h1 := h a (by simp)
    have h2 := ih (fun x hx => h x (by simp [hx]))
    linarith

theorem softmax_mem_bounds (ef : ℚ → ℚ) (hef : ∀ x, 0 < ef x) (l : List ℚ)
    (y : ℚ) (hy : y ∈ softmax ef l) : 0 < y ∧ y ≤ 1 := by
  unfold softmax at hy
  obtain ⟨a, ha, rfl⟩ := List.mem_map.mp hy
  have hmem : ef a ∈ l.map ef := List.mem_map.mpr ⟨a, ha, rfl⟩
  have hnn : ∀ b ∈ l.map ef, (0 : ℚ) ≤ b := by
    intro b hb
    obtain ⟨x, hx, rfl⟩ := List.mem_map.mp hb
    exact (hef x).le
  have hS : 0 < (l.map ef).sum := by
    refine List.sum_pos _ (fun b hb => ?_) ?_
    · obtain ⟨x, hx, rfl⟩ := List.mem_map.mp hb
      exact hef x
    · intro hnil
      rw [hnil] at hmem
      simp at hmem
  exact ⟨div_pos (hef a) hS,
    (div_le_one hS).mpr (List.single_le_sum hnn _ hmem)⟩

/-- C4: over any positive exponential map, the voting softmax of each
example sums to 1 (the logit vector over num_votes experts is non-empty),
and the final prediction of the forward pass equals the dot product of the
expert outputs with the vote probabilities. -/
theorem vote_softmax_sums_to_one (ef : ℚ → ℚ)
    (expertNetworks : List (List ℚ → ℚ)) (votingNetwork : List ℚ → List ℚ)
    (emb : List ℚ) (hpos : ∀ x, 0 < ef x) (hne : votingNetwork emb ≠ []) :
    (voteProb ef votingNetwork emb).sum = 1 ∧
      fwdModelPred ef expertNetworks votingNetwork emb =
        dotProduct (voteProb ef votingNetwork emb)
          (expertNetworks.map (fun net => net emb)) := by
  refine ⟨?_, rfl⟩
  unfold voteProb softmax
  have hS : 0 < ((votingNetwork emb).map ef).sum := by
    refine List.sum_pos _ (fun b hb => ?_) ?_
    · obtain ⟨x, hx, rfl⟩ := List.mem_map.mp hb
      exact hpos x
    · simpa using hne
  rw [sum_map_div_comp, div_self (ne_of_gt hS)]

/-- C4 witness: a two-expert head with equal logits at a concrete
embedding. -/
theorem vote_softmax_sums_to_one_witness :
    (voteProb (fun _ => 1) (fun e => e) [0, 0]).sum = 1 ∧
      fwdModelPred (fun _ => 1) [fun e => e.sum + 3, fun e => e.sum + 5]
          (fun e => e) [0, 0] =
        dotProduct (voteProb (fun _ => 1) (fun e => e) [0, 0])
          ([fun e => e.sum + 3, fun e => e.sum + 5].map
            (fun net => net [0, 0])) :=
  vote_softmax_sums_to_one (fun _ => 1)
    [fun e => e.sum + 3, fun e => e.sum + 5] (fun e => e) [0, 0]
    (fun _ => one_pos) (by decide)

/-- C8 (amended): the logged vote_entropy equals the mean over the batch of
the sum of p_i * log p_i of the voting distribution - the NEGATION of the
mean entropy the claim describes - and it is non-positive, for any positive
exponential stand-in and any logarithm stand-in that is non-positive on
(0, 1], as the real exponential and logarithm are. -/
theorem vote_entropy_is_negated_entropy (ef lg : ℚ → ℚ)
    (batch : List (List ℚ))
    (hef : ∀ x, 0 < ef x) (hlg : ∀ x, 0 < x → x ≤ 1 → lg x ≤ 0) :
    voteEntropyLogged ef lg batch = -(specVoteEntropy ef lg batch) ∧
      voteEntropyLogged ef lg batch ≤ 0 := by
  constructor
  · unfold voteEntropyLogged specVoteEntropy logSoftmax distEntropy mean
    simp only [zip_mul_map_sum]
    rw [sum_map_neg_q, List.length_map, List.length_map, neg_div, neg_neg]
  · unfold voteEntropyLogged mean
    refine div_nonpos_of_nonpos_of_nonneg ?_ (Nat.cast_nonneg _)
    refine sum_nonpos_q _ (fun v hv => ?_)
    obtain ⟨l, hl, rfl⟩ := List.mem_map.mp hv
    simp only [logSoftmax]
    rw [zip_mul_map_sum]
    refine sum_nonpos_q _ (fun w hw => ?_)
    obtain ⟨y, hy, rfl⟩ := List.mem_map.mp hw
    have hb := softmax_mem_bounds ef hef l y hy
    exact mul_nonpos_of_nonneg_of_nonpos hb.1.le (hlg y hb.1 hb.2)

/-- C8 witness: constant exponential stand-in (positive) and the
sign-faithful logarithm stand-in lg x = x - 1, at the one-example batch of
two equal vote logits. -/
theorem vote_entropy_is_negated_entropy_witness :
    voteEntropyLogged (fun _ => (1 : ℚ)) (fun x => x - 1) [[0, 0]] =
        -(specVoteEntropy (fun _ => (1 : ℚ)) (fun x => x - 1) [[0, 0]]) ∧
      voteEntropyLogged (fun _ => (1 : ℚ)) (fun x => x - 1) [[0, 0]] ≤ 0 :=
  vote_entropy_is_negated_entropy (fun _ => 1) (fun x => x - 1) [[0, 0]]
    (fun _ => one_pos) (fun x hx hx1 => by simpa [sub_nonpos] using hx1)

/-- C8 counterexample: with two equal vote logits, the softmax is
(1/2, 1/2) and the logged quantity is the mean of sum p_i * log p_i, which
is log (1/2), a negative number; the entropy the claim names is its
negation.  With the sign-faithful stand-ins used throughout (exponential
fixed at 1, logarithm x - 1) the logged value is -1/2 while the claimed
mean entropy is 1/2: the two are different, and the logged value is
negative, not the non-negative entropy. -/
theorem vote_entropy_sign_counterexample :
    voteEntropyLogged (fun _ => (1 : ℚ)) (fun x => x - 1) [[0, 0]] =
        -(1 / 2) ∧
      specVoteEntropy (fun _ => (1 : ℚ)) (fun x => x - 1) [[0, 0]] = 1 / 2 ∧
      voteEntropyLogged (fun _ => (1 : ℚ)) (fun x => x - 1) [[0, 0]] ≠
        specVoteEntropy (fun _ => (1 : ℚ)) (fun x => x - 1) [[0, 0]] := by
  norm_num [voteEntropyLogged, specVoteEntropy, logSoftmax, softmax,
    distEntropy, mean]

theorem feasibleFlag_eq_ite (ac : Bool) (r : StoredRecord) :
    feasibleFlag ac r = if isFeasible ac r then 1 else 0 := by
  unfold feasibleFlag isFeasible clipQ
  cases hi : r.infeasible <;> cases ac <;> by_cases ha : r.area ≤ 27 <;>
    simp [hi, ha, min_def, max_def]

theorem divNan_ite (b : Bool) (S : ℚ) (hS : S ≠ 0) :
    divNan (if b then 1 else 0) S = some (if b then S⁻¹ else 0) := by
  unfold divNan
  rw [if_neg hS]
  cases b <;> simp [one_div]

/-- C6: when both partitions are non-empty, get_feasible_probs returns two
everywhere-defined vectors: the feasible one uniform over the records
satisfying the feasibility predicate (not infeasible, and area at most the
threshold when area-constrained) and zero elsewhere, the infeasible one
uniform over the complement and zero elsewhere, each summing to 1. -/
theorem get_feasible_probs_uniform (recs : List StoredRecord) (ac : Bool)
    (hf : 0 < recs.countP (isFeasible ac))
    (hi : 0 < recs.countP (fun s => !isFeasible ac s)) :
    (getFeasibleProbs recs ac).1 =
        recs.map (fun r => some (if isFeasible ac r
          then ((recs.countP (isFeasible ac) : ℚ))⁻¹ else 0)) ∧
      (getFeasibleProbs recs ac).2 =
        recs.map (fun r => some (if isFeasible ac r then 0
          else ((recs.countP (fun s => !isFeasible ac s) : ℚ))⁻¹)) ∧
      (((getFeasibleProbs recs ac).1.map (fun o => o.getD 0)).sum = 1 ∧
        ((getFeasibleProbs recs ac).2.map (fun o => o.getD 0)).sum = 1) := by
  have hmap : recs.map (feasibleFlag ac) =
      recs.map (fun r => if isFeasible ac r then (1 : ℚ) else 0) :=
    List.map_congr_left (fun r _ => feasibleFlag_eq_ite ac r)
  have hS1 : (recs.map (feasibleFlag ac)).sum =
      (recs.countP (isFeasible ac) : ℚ) := by
    rw [hmap, sum_map_ite, mul_one]
  have hS1ne : ((recs.countP (isFeasible ac) : ℚ)) ≠ 0 :=
    (Nat.cast_pos.mpr hf).ne'
  have hcompl : ∀ r : StoredRecord,
      1 - feasibleFlag ac r = if !isFeasible ac r then (1 : ℚ) else 0 := by
    intro r
    rw [feasibleFlag_eq_ite]
    cases h : isFeasible ac r <;> simp
  have hS2 : ((recs.map (feasibleFlag ac)).map (fun g => 1 - g)).sum =
      (recs.countP (fun s => !isFeasible ac s) : ℚ) := by
    rw [List.map_map]
    rw [show ((fun g => 1 - g) ∘ feasibleFlag ac) =
      fun r => if !isFeasible ac r then (1 : ℚ) else 0 from funext hcompl]
    rw [sum_map_ite, mul_one]
  have hS2ne : ((recs.countP (fun s => !isFeasible ac s) : ℚ)) ≠ 0 :=
    (Nat.cast_pos.mpr hi).ne'
  have h1 : (getFeasibleProbs recs ac).1 =
      recs.map (fun r => some (if isFeasible ac r
        then ((recs.countP (isFeasible ac) : ℚ))⁻¹ else 0)) := by
    show (recs.map (feasibleFlag ac)).map
        (fun f => divNan f (recs.map (feasibleFlag ac)).sum) = _
    rw [hS1, List.map_map]
    refine List.map_congr_left (fun r _ => ?_)
    show divNan (feasibleFlag ac r) _ = _
    rw [feasibleFlag_eq_ite, divNan_ite _ _ hS1ne]
  have h2 : (getFeasibleProbs recs ac).2 =
      recs.map (fun r => some (if isFeasible ac r then 0
        else ((recs.countP (fun s => !isFeasible ac s) : ℚ))⁻¹)) := by
    show (recs.map (feasibleFlag ac)).map
        (fun f => divNan (1 - f)
          ((recs.map (feasibleFlag ac)).map (fun g => 1 - g)).sum) = _
    rw [hS2, List.map_map]
    refine List.map_congr_left (fun r _ => ?_)
    show divNan (1 - feasibleFlag ac r) _ = _
    rw [hcompl r, divNan_ite _ _ hS2ne]
    cases h : isFeasible ac r <;> simp
  refine ⟨h1, h2, ?_, ?_⟩
  · rw [h1, List.map_map]
    rw [show ((fun o : Option ℚ => o.getD 0) ∘
        (fun r => some (if isFeasible ac r
          then ((recs.countP (isFeasible ac) : ℚ))⁻¹ else 0))) =
      fun r => if isFeasible ac r
        then ((recs.countP (isFeasible ac) : ℚ))⁻¹ else 0 from rfl]
    rw [sum_map_ite, mul_inv_cancel₀ hS1ne]
  · rw [h2, List.map_map]
    rw [show ((fun o : Option ℚ => o.getD 0) ∘
        (fun r => some (if isFeasible ac r then 0
          else ((recs.countP (fun s => !isFeasible ac s) : ℚ))⁻¹))) =
      fun r => if !isFeasible ac r
        then ((recs.countP (fun s => !isFeasible ac s) : ℚ))⁻¹ else 0 from
      funext (fun r => by cases h : isFeasible ac r <;> simp [h])]
    rw [sum_map_ite, mul_inv_cancel₀ hS2ne]

/-- C6 witness: one feasible record (area 10) and one infeasible record
(area 50), with the area constraint enabled. -/
theorem get_feasible_probs_uniform_witness :
    (getFeasibleProbs [StoredRecord.mk false 10, StoredRecord.mk true 50]
        true).1 =
      [StoredRecord.mk false 10, StoredRecord.mk true 50].map
        (fun r => some (if isFeasible true r
          then (([StoredRecord.mk false 10,
              StoredRecord.mk true 50].countP (isFeasible true) : ℚ))⁻¹
          else 0)) ∧
      (getFeasibleProbs [StoredRecord.mk false 10, StoredRecord.mk true 50]
          true).2 =
        [StoredRecord.mk false 10, StoredRecord.mk true 50].map
          (fun r => some (if isFeasible true r then 0
            else (([StoredRecord.mk false 10,
                StoredRecord.mk true 50].countP
                  (fun s => !isFeasible true s) : ℚ))⁻¹)) ∧
      (((getFeasibleProbs [StoredRecord.mk false 10,
          StoredRecord.mk true 50] true).1.map
            (fun o => o.getD 0)).sum = 1 ∧
        ((getFeasibleProbs [StoredRecord.mk false 10,
          StoredRecord.mk true 50] true).2.map
            (fun o => o.getD 0)).sum = 1) :=
  get_feasible_probs_uniform
    [StoredRecord.mk false 10, StoredRecord.mk true 50] true
    (by decide) (by decide)

/-- C7 (amended): with an empty feasible partition get_feasible_probs does
not raise any error; the numpy division of zero by zero makes every entry
of the feasible-probability vector the non-finite NaN. -/
theorem get_feasible_probs_empty_partition_nan (recs : List StoredRecord)
    (ac : Bool) (h : recs.countP (isFeasible ac) = 0) :
    (getFeasibleProbs recs ac).1 = recs.map (fun _ => none) := by
  have hmap : recs.map (feasibleFlag ac) =
      recs.map (fun r => if isFeasible ac r then (1 : ℚ) else 0) :=
    List.map_congr_left (fun r _ => feasibleFlag_eq_ite ac r)
  have hS1 : (recs.map (feasibleFlag ac)).sum = 0 := by
    rw [hmap, sum_map_ite, h]
    simp
  show (recs.map (feasibleFlag ac)).map
      (fun f => divNan f (recs.map (feasibleFlag ac)).sum) = _
  rw [hS1, List.map_map]
  refine List.map_congr_left (fun r _ => ?_)
  show divNan (feasibleFlag ac r) 0 = none
  unfold divNan
  simp

/-- C7 amendment witness: a dataset whose single record is flagged
infeasible. -/
theorem get_feasible_probs_empty_partition_nan_witness :
    (getFeasibleProbs [StoredRecord.mk true 10] false).1 =
      [StoredRecord.mk true 10].map (fun _ => none) :=
  get_feasible_probs_empty_partition_nan [StoredRecord.mk true 10] false
    (by decide)

/-- C7 counterexample: on that same all-infeasible dataset the claim says
get_feasible_probs raises a configuration error, but the source body
contains no raise: the call returns normally, and the feasible-probability
vector it produces holds the ill-defined NaN entry instead of a
probability. -/
theorem get_feasible_probs_no_raise_counterexample :
    getFeasibleProbs [StoredRecord.mk true 10] false = ([none], [some 1]) ∧
      none ∈ (getFeasibleProbs [StoredRecord.mk true 10] false).1 := by
  norm_num [getFeasibleProbs, feasibleFlag, divNan]

/-- C5 counterexample: a record whose raw runtime is 3/2.  The runtime
column passes through the int32 conversion, so the stored score is -1, not
-(3/2) as the claim requires. -/
theorem stored_score_truncates_counterexample :
    storedScore (3 / 2) = -1 ∧ storedScore (3 / 2) ≠ -(3 / 2) := by
  have h32 : (3 / 2 : ℚ) = Rat.divInt 3 2 := by norm_num [Rat.divInt_eq_div]
  have hnum : storedScore (3 / 2) = -1 := by
    unfold storedScore int32OfFloat
    rw [h32]
    norm_num [show (Rat.divInt 3 2).num = 3 from rfl,
      show (Rat.divInt 3 2).den = 2 from rfl,
      show ((3 : ℤ).tdiv 2) = 1 from rfl]
  refine ⟨hnum, ?_⟩
  rw [hnum]
  norm_num

/-- C5 (amended): the stored supervised target is the negation of the
runtime truncated toward zero by the int32 dataset conversion, and it
equals -runtime exactly when the raw runtime is an integer. -/
theorem stored_score_eq_neg_runtime_iff_integral (runtime : ℚ) :
    storedScore runtime = -runtime ↔ runtime.den = 1 := by
  unfold storedScore int32OfFloat
  rw [neg_inj]
  constructor
  · intro h
    have hd := congrArg Rat.den h
    rw [Rat.den_intCast] at hd
    exact hd.symm
  · intro h
    have h2 : (runtime.num : ℚ) = runtime := (Rat.den_eq_one_iff runtime).mp h
    rw [h]
    simp only [Nat.cast_one, Int.tdiv_one]
    exact h2

/-- C3: evaluation at the failing input.  With the gradient oracle equal to
the identity (a model whose gradient row for each example is the example
itself), learning rate 1 and one ascent step on the batch [[0], [1]], the
source loop leaves the batch unchanged, because every row is moved by
grad[0] = [0], the first example's gradient; the per-example update the
claim describes moves the second example by its own gradient, to [2]. -/
theorem infer_negatives_first_row_gradient :
    inferNegLoop (fun x => x) 1 1 [[0], [1]] = [[0], [1]] ∧
      inferNegLoopSpec (fun x => x) 1 1 [[0], [1]] = [[0], [2]] ∧
      inferNegLoop (fun x => x) 1 1 [[0], [1]] ≠
        inferNegLoopSpec (fun x => x) 1 1 [[0], [1]] := by
  norm_num [inferNegLoop, inferNegStep, inferNegLoopSpec, inferNegStepSpec,
    addVec]

/-- A concrete model for instantiations: the prediction is the first entry
of the design row, plus 100 when the python training flag is set, so the
two flags give different predictions. -/
def mFlag : Bool → List ℚ → ℚ :=
  fun t l => if t then l.headD 0 + 100 else l.headD 0

/-- A concrete ranking-loss stand-in for instantiations. -/
def rankZero : List ℚ → List ℚ → ℚ := fun _ _ => 0

/-- Concrete loss parameters for instantiations. -/
def pOne : LossParams :=
  { cqlAlphaValue := 1, infeasibleAlpha := 1, optLr := 1,
    numGradientInferSteps := 0 }

/-- A valid-only batch: it carries no invalid keys. -/
def validBatch : LossInputs :=
  { design := [[2]], objective := [2], invalidDesign := none,
    invalidObjective := none }

/-- A mixed batch carrying the invalid keys. -/
def mixedBatch : LossInputs :=
  { design := [[1]], objective := [1], invalidDesign := some [[2]],
    invalidObjective := some [2] }

/-- The loss output of computeLoss on validBatch under mFlag and pOne with
inp_batch_type explicitly "valid". -/
def outValid : LossOutput :=
  { modelPred := [102], negativesPred := [102], cqlLoss := 102,
    mseLoss := 10000, modelPredInvalid := none, yValueInfeasible := none,
    mseLossInvalid := none, trainLoss := 10102 }

/-- The loss output of computeLoss on mixedBatch under mFlag and pOne with
training = false and inp_batch_type at its default None. -/
def outMixed : LossOutput :=
  { modelPred := [1], negativesPred := [101], cqlLoss := 101, mseLoss := 0,
    modelPredInvalid := some [2], yValueInfeasible := some 2,
    mseLossInvalid := some 0, trainLoss := 103 }

/-- C1: whenever compute_loss returns, the per-example predictions on the
generated negatives batch are the elementwise clip to [-4000, 4000] of the
model outputs on the negatives, cql_loss is their mean clipped to
[-4000, 1e6], and the training loss is the supervised mse plus the
weighted ranking term plus cql_alpha times cql_loss, plus the infeasible
term exactly when the invalid branch ran. -/
theorem compute_loss_cql_clipping (M : Bool → List ℚ → ℚ)
    (gradPred : List (List ℚ) → List (List ℚ))
    (rankFn : List ℚ → List ℚ → ℚ) (p : LossParams) (batch : LossInputs)
    (lossType : String) (training : Bool) (w : ℚ) (ibt : Option String)
    (out : LossOutput)
    (h : computeLoss M gradPred rankFn p batch lossType training w ibt =
      Except.ok out) :
    out.negativesPred =
        ((inferNegLoop gradPred p.optLr p.numGradientInferSteps
          batch.design).map (M true)).map (clipQ (-4000) 4000) ∧
      out.cqlLoss = clipQ (-4000) 1000000 (mean out.negativesPred) ∧
      out.trainLoss = out.mseLoss +
          w * (if lossType = "mse+rank"
            then rankFn out.modelPred batch.objective else 0) +
          p.cqlAlphaValue * out.cqlLoss +
          (match out.yValueInfeasible with
            | some y => p.infeasibleAlpha * y
            | none => 0) := by
  simp only [computeLoss] at h
  split at h
  · injection h with h2
    subst h2
    exact ⟨rfl, rfl, (add_zero _).symm⟩
  · split at h
    · exact Except.noConfusion h
    · split at h
      · exact Except.noConfusion h
      · injection h with h2
        subst h2
        exact ⟨rfl, rfl, rfl⟩

/-- C1 instantiated: the valid-only path at concrete inputs. -/
theorem compute_loss_cql_clipping_witness :
    outValid.negativesPred =
        ((inferNegLoop (fun x => x) pOne.optLr pOne.numGradientInferSteps
          validBatch.design).map (mFlag true)).map (clipQ (-4000) 4000) ∧
      outValid.cqlLoss =
        clipQ (-4000) 1000000 (mean outValid.negativesPred) ∧
      outValid.trainLoss = outValid.mseLoss +
          0 * (if "mse" = "mse+rank"
            then rankZero outValid.modelPred validBatch.objective else 0) +
          pOne.cqlAlphaValue * outValid.cqlLoss +
          (match outValid.yValueInfeasible with
            | some y => pOne.infeasibleAlpha * y
            | none => 0) :=
  compute_loss_cql_clipping mFlag (fun x => x) rankZero pOne validBatch
    "mse" true 0 (some "valid") outValid (by
      norm_num [computeLoss, mFlag, rankZero, pOne, validBatch,
        inferNegLoop, mean, mseLossQ, clipQ, min_def, max_def]
      all_goals rfl)

/-- C2: evaluation at the failing input.  perform_training always calls
compute_loss with inp_batch_type left at its default None, so the
condition inp_batch_type is-not "valid" holds and the invalid branch runs
even on a valid-only batch, where the lookup of invalid/design raises
KeyError.  Passing inp_batch_type = "valid" explicitly, as the claim
assumes happens, would skip the branch and add no infeasible term
(yValueInfeasible stays none). -/
theorem perform_training_valid_batch_key_error :
    performTrainingLoss mFlag (fun x => x) rankZero pOne validBatch "mse"
        0 = Except.error "KeyError: invalid/design" ∧
      computeLoss mFlag (fun x => x) rankZero pOne validBatch "mse" true 0
          (some "valid") = Except.ok outValid := by
  constructor
  · rfl
  · norm_num [computeLoss, mFlag, rankZero, pOne, validBatch,
      inferNegLoop, mean, mseLossQ, clipQ, min_def, max_def]
    all_goals rfl

/-- C10: with the built-in negative generator in non-contextual mode, the
forward pass on the negatives batch is made with training=True whatever
training flag compute_loss was called with, while the main forward pass
and the invalid-batch forward pass use the caller's flag. -/
theorem negatives_pass_ignores_training_flag (M : Bool → List ℚ → ℚ)
    (gradPred : List (List ℚ) → List (List ℚ))
    (rankFn : List ℚ → List ℚ → ℚ) (p : LossParams) (batch : LossInputs)
    (lossType : String) (training : Bool) (w : ℚ) (ibt : Option String)
    (out : LossOutput)
    (h : computeLoss M gradPred rankFn p batch lossType training w ibt =
      Except.ok out) :
    out.negativesPred =
        ((inferNegLoop gradPred p.optLr p.numGradientInferSteps
          batch.design).map (M true)).map (clipQ (-4000) 4000) ∧
      out.modelPred = batch.design.map (M training) ∧
      (∀ invD, batch.invalidDesign = some invD → ibt ≠ some "valid" →
        out.modelPredInvalid = some (invD.map (M training))) := by
  simp only [computeLoss] at h
  split at h
  · rename_i hibt
    injection h with h2
    subst h2
    exact ⟨rfl, rfl, fun invD _ hv => absurd hibt hv⟩
  · split at h
    · exact Except.noConfusion h
    · rename_i invD hinv
      split at h
      · exact Except.noConfusion h
      · injection h with h2
        subst h2
        refine ⟨rfl, rfl, fun invD2 hEq _ => ?_⟩
        rw [hinv] at hEq
        injection hEq with hEq2
        subst hEq2
        rfl

/-- C10 instantiated: the mixed batch with training = false; the negatives
prediction is 101 (the flag-true model), the main and invalid predictions
1 and 2 (the flag-false model). -/
theorem negatives_pass_ignores_training_flag_witness :
    outMixed.negativesPred =
        ((inferNegLoop (fun x => x) pOne.optLr pOne.numGradientInferSteps
          mixedBatch.design).map (mFlag true)).map (clipQ (-4000) 4000) ∧
      outMixed.modelPred = mixedBatch.design.map (mFlag false) ∧
      (∀ invD, mixedBatch.invalidDesign = some invD →
        (none : Option String) ≠ some "valid" →
        outMixed.modelPredInvalid = some (invD.map (mFlag false))) :=
  negatives_pass_ignores_training_flag mFlag (fun x => x) rankZero pOne
    mixedBatch "mse" false 0 none outMixed (by
      norm_num [computeLoss, mFlag, rankZero, pOne, mixedBatch,
        inferNegLoop, mean, mseLossQ, clipQ, min_def, max_def]
      all_goals rfl)

/-- C9: evaluation at the failing input.  With no batch_size key, __init__
assigns the default 256 to the attribute batch_size, but batch sampling
reads the attribute _batch_size, which only the key-present branch ever
assigns: sampling raises AttributeError instead of using the default 256,
while with the key present it uses the supplied size. -/
theorem batch_size_default_attribute_error :
    (hardwareOptProblemInit none).batch_size = 256 ∧
      getValidOnlyBatchSize (hardwareOptProblemInit none) =
        Except.error "AttributeError: _batch_size" ∧
      getValidOnlyBatchSize (hardwareOptProblemInit (some 32)) =
        Except.ok 32 :=
  ⟨rfl, rfl, rfl⟩

end PrimeSpec
